import Mathlib

/-!
Verification development for the network-genealogy core of truffle's
`@truffle/db` package (source: `src/packages/db/src/meta/graph/types.ts`).

The embedding models the effectful generator functions `process`,
`findRelation`, `queryNextPossiblyRelatedNetworks` and
`findMatchingCandidateOnChain` as pure functions parameterised by oracles
for the two external collaborators (the record Store and the chain client),
returning the trace of effects issued (the generator's yields) together
with the outcome.  The search loop of `findRelation`, unbounded in the
source, is embedded with an explicit fuel parameter; running out of fuel is
a distinct outcome (`none`) so that termination can be stated and proved
under the documented Store assumptions.
-/

namespace NetworkGenealogies

/-- Historic block reference of a network: `historicBlock { hash, height }`. -/
structure HistoricBlock where
  hash : String
  height : Int
deriving DecidableEq, Repr

/-- Network resource as consumed by the core: `id` plus `historicBlock`
(the `Pick<Resource<"networks">, "id" | "historicBlock">` shape). -/
structure Network where
  id : String
  historicBlock : HistoricBlock
deriving DecidableEq, Repr

/-- Modelled from the spec: `toIdObject` and the `IdObject<"networks">` shape are
imported from `@truffle/db/meta/ids`, which is not under `src/`.  The spec's
data model (§3) calls the endpoints of a `GenealogyEdge` `NetworkRef`s and
states invariants over both their `id` and their `height`, so the reference
produced by `toIdObject` keeps the network's id together with its historic
block. -/
structure NetworkRef where
  id : String
  historicBlock : HistoricBlock
deriving DecidableEq, Repr

/-- Modelled from the spec: projection of a `Network` resource to its
reference (the source's `toIdObject`). -/
def toIdObject (n : Network) : NetworkRef :=
  ⟨n.id, n.historicBlock⟩

/-- NetworkGenealogyInput: an ancestor/descendant edge between two network
references. -/
structure NetworkGenealogyInput where
  ancestor : NetworkRef
  descendant : NetworkRef
deriving DecidableEq, Repr

/-- Requested relation for a candidate search: the source's
`"ancestor" | "descendant"` string union. -/
inductive RelationKind where
  | ancestor
  | descendant
deriving DecidableEq, Repr

/-- DataModel.CandidateSearchResult: one Store reply — candidate networks
plus the updated `alreadyTried` exclusion list. -/
structure CandidateSearchResult where
  networks : List Network
  alreadyTried : List String
deriving DecidableEq, Repr

/-- Outcome of a single `eth_getBlockByNumber` chain query, as the code
observes it: a transport-level failure thrown into the generator, a falsy
response / null result (no block at that height), or a block with a hash. -/
inductive ChainOutcome where
  | fail (msg : String)
  | noBlock
  | block (hash : String)
deriving DecidableEq, Repr

/-- Chain client oracle: what the chain reports for each queried height. -/
def ChainFun : Type :=
  Int → ChainOutcome

/-- Store oracle for the `possibleAncestors` / `possibleDescendants`
query: given the relation, the queried network's id, the `alreadyTried`
exclusion list and the `disableIndex` flag, either a transport-level
failure or a `CandidateSearchResult`. -/
def StoreFun : Type :=
  RelationKind → String → List String → Bool → Except String CandidateSearchResult

/-- Effects yielded by the generator code: a Store candidate query, a chain
block query, or the final bulk `resources.load` of genealogy inputs. -/
inductive Effect where
  | storeQuery (relation : RelationKind) (networkId : String)
      (alreadyTried : List String) (disableIndex : Bool)
  | chainQuery (height : Int)
  | storeLoad (inputs : List NetworkGenealogyInput)
deriving DecidableEq, Repr

/-- Errors with which an invocation of the core can fail.  `typeError` is a
JavaScript `TypeError` crash from dereferencing `undefined`; the other two
are the spec's typed `StoreQueryError` / `ChainQueryError`. -/
inductive Err where
  | storeQueryError (msg : String)
  | chainQueryError (msg : String)
  | typeError (msg : String)
deriving DecidableEq, Repr

/-- Comparator used to sort artifact networks:
`(a, b) => a.historicBlock.height - b.historicBlock.height`, i.e. ascending
block height (JavaScript's sort with a numeric comparator is stable). -/
def heightLe (a b : Network) : Prop :=
  a.historicBlock.height ≤ b.historicBlock.height

instance : DecidableRel heightLe := by
  intro a b
  unfold heightLe
  infer_instance

instance : IsTotal Network heightLe :=
  ⟨fun a b => Int.le_total a.historicBlock.height b.historicBlock.height⟩

instance : IsTrans Network heightLe :=
  ⟨fun _ _ _ h h' => le_trans h h'⟩

/-- One step of the reduction in `collectNetworks`: starting from the
current ancestor, step over the next descendant; emit a pairwise edge
unless the two ids coincide, and carry the descendant as the next
ancestor. -/
def collectStep (acc : NetworkRef × List NetworkGenealogyInput)
    (descendant : NetworkRef) : NetworkRef × List NetworkGenealogyInput :=
  ⟨descendant,
    if acc.1.id = descendant.id then acc.2
    else acc.2 ++ [⟨acc.1, descendant⟩]⟩

/-- The sorted list of present artifact networks: discard absent entries,
then sort ascending by `historicBlock.height` (source lines 177–179, before
the `map(toIdObject)`). -/
def sortedNetworks (options : List (Option Network)) : List Network :=
  List.insertionSort heightLe (options.filterMap id)

/-- `collectNetworks`: filter and sort the sparse batch, project to id
objects, and reduce over the tail to build pairwise
`NetworkGenealogyInput`s for sequential pairs (source lines 168–223). -/
def collectNetworks (options : List (Option Network)) :
    List NetworkRef × List NetworkGenealogyInput :=
  let networks : List NetworkRef := (sortedNetworks options).map toIdObject
  match networks with
  | [] => ⟨[], []⟩
  | first :: rest =>
    ⟨networks, (rest.foldl collectStep ⟨first, []⟩).2⟩

/-- `findMatchingCandidateOnChain` (source lines 340–359): for each
candidate in list order, yield an `eth_getBlockByNumber` query at the
candidate's historic height; if the response has a result whose hash is
strictly equal to the candidate's recorded hash, return that candidate's id
object immediately.  A falsy response or null result is a non-match; a
transport failure is thrown into the generator and, there being no
try/catch here, propagates.  Returns the trace of yielded effects together
with the outcome. -/
def findMatchingCandidateOnChain (chain : ChainFun) :
    List Network → List Effect × Except Err (Option NetworkRef)
  | [] => ⟨[], .ok none⟩
  | candidate :: rest =>
    let h := candidate.historicBlock.height
    match chain h with
    | .fail msg => ⟨[.chainQuery h], .error (.chainQueryError msg)⟩
    | .noBlock =>
      let r := findMatchingCandidateOnChain chain rest
      ⟨.chainQuery h :: r.1, r.2⟩
    | .block hash =>
      if hash = candidate.historicBlock.hash then
        ⟨[.chainQuery h], .ok (some (toIdObject candidate))⟩
      else
        let r := findMatchingCandidateOnChain chain rest
        ⟨.chainQuery h :: r.1, r.2⟩

/-- `queryNextPossiblyRelatedNetworks` (source lines 285–332): issue the
`possibleAncestors` / `possibleDescendants` Store query for the given
network and exclusion list.  The `try` block wraps only the `resources.get`
yield; a failure thrown there is caught and merely logged, after which the
code reads `result.networks` from the still-undefined `result` — a
`TypeError` crash, not a typed store error.  When the network itself is
`undefined` (an out-of-range `networks[0]`), evaluating `network.id` throws
inside the same `try` before any effect is yielded, with the same
`TypeError` crash on the subsequent dereference. -/
def queryNextPossiblyRelatedNetworks (store : StoreFun) (relation : RelationKind)
    (network : Option NetworkRef) (alreadyTried : List String)
    (disableIndex : Bool) : List Effect × Except Err CandidateSearchResult :=
  match network with
  | none =>
    ⟨[], .error (.typeError "Cannot read properties of undefined (reading networks)")⟩
  | some n =>
    match store relation n.id alreadyTried disableIndex with
    | .ok result =>
      ⟨[.storeQuery relation n.id alreadyTried disableIndex], .ok result⟩
    | .error _ =>
      ⟨[.storeQuery relation n.id alreadyTried disableIndex],
        .error (.typeError "Cannot read properties of undefined (reading networks)")⟩

/-- Body of `findRelation`'s do/while loop (source lines 252–272), with an
explicit fuel parameter standing in for the unbounded iteration: query the
Store for new candidates threading the exclusion list, validate the
candidates on chain, return a confirmed match immediately, and repeat while
the candidate batch is non-empty.  `none` marks fuel exhaustion. -/
def findRelationAux (store : StoreFun) (chain : ChainFun)
    (relation : RelationKind) (network : Option NetworkRef)
    (disableIndex : Bool) :
    Nat → List String → List Effect × Option (Except Err (Option NetworkRef))
  | 0, _ => ⟨[], none⟩
  | fuel + 1, alreadyTried =>
    let q := queryNextPossiblyRelatedNetworks store relation network
      alreadyTried disableIndex
    match q.2 with
    | .error e => ⟨q.1, some (.error e)⟩
    | .ok result =>
      let m := findMatchingCandidateOnChain chain result.networks
      match m.2 with
      | .error e => ⟨q.1 ++ m.1, some (.error e)⟩
      | .ok (some matchingCandidate) =>
        ⟨q.1 ++ m.1, some (.ok (some matchingCandidate))⟩
      | .ok none =>
        if result.networks.length > 0 then
          let r := findRelationAux store chain relation network disableIndex
            fuel result.alreadyTried
          ⟨q.1 ++ m.1 ++ r.1, r.2⟩
        else
          ⟨q.1 ++ m.1, some (.ok none)⟩

/-- `findRelation` (source lines 238–275): run the candidate-search loop
starting from an empty `alreadyTried` exclusion list. -/
def findRelation (store : StoreFun) (chain : ChainFun)
    (relation : RelationKind) (network : Option NetworkRef)
    (disableIndex : Bool) (fuel : Nat) :
    List Effect × Option (Except Err (Option NetworkRef)) :=
  findRelationAux store chain relation network disableIndex fuel []

/-- Main loop of `process` (source lines 131–149): for each network of the
sorted batch in order, search for a known ancestor and then a known
descendant, appending one genealogy input for each confirmed relation. -/
def processLoop (store : StoreFun) (chain : ChainFun) (disableIndex : Bool)
    (fuel : Nat) :
    List NetworkRef → List NetworkGenealogyInput →
      List Effect × Option (Except Err (List NetworkGenealogyInput))
  | [], acc => ⟨[], some (.ok acc)⟩
  | network :: rest, acc =>
    let ra := findRelation store chain .ancestor (some network) disableIndex fuel
    match ra.2 with
    | none => ⟨ra.1, none⟩
    | some (.error e) => ⟨ra.1, some (.error e)⟩
    | some (.ok ancestorFound) =>
      let acc1 := match ancestorFound with
        | some ancestor => acc ++ [⟨ancestor, network⟩]
        | none => acc
      let rd := findRelation store chain .descendant (some network) disableIndex fuel
      match rd.2 with
      | none => ⟨ra.1 ++ rd.1, none⟩
      | some (.error e) => ⟨ra.1 ++ rd.1, some (.error e)⟩
      | some (.ok descendantFound) =>
        let acc2 := match descendantFound with
          | some descendant => acc1 ++ [⟨network, descendant⟩]
          | none => acc1
        let lp := processLoop store chain disableIndex fuel rest acc2
        ⟨ra.1 ++ rd.1 ++ lp.1, lp.2⟩

/-- `process` (source lines 107–161): return early (undefined, inner
`none`) on an empty input list; otherwise collect the sorted batch and its
pairwise genealogies, run the unused ancestor lookup for `networks[0]`
(which still issues its effects and can fail), run the main search loop,
and finally bulk-load all accumulated `NetworkGenealogyInput`s, returning
the loaded records.  The outer `Option` marks fuel exhaustion of a search
loop. -/
def process (store : StoreFun) (chain : ChainFun) (fuel : Nat)
    (networksInput : List (Option Network)) (disableIndex : Bool) :
    List Effect × Option (Except Err (Option (List NetworkGenealogyInput))) :=
  if networksInput.length = 0 then ⟨[], some (.ok none)⟩
  else
    let collected := collectNetworks networksInput
    let networks := collected.1
    let networkGenealogies := collected.2
    let earliest := networks.head?
    let r0 := findRelation store chain .ancestor earliest disableIndex fuel
    match r0.2 with
    | none => ⟨r0.1, none⟩
    | some (.error e) => ⟨r0.1, some (.error e)⟩
    | some (.ok _) =>
      let lp := processLoop store chain disableIndex fuel networks networkGenealogies
      match lp.2 with
      | none => ⟨r0.1 ++ lp.1, none⟩
      | some (.error e) => ⟨r0.1 ++ lp.1, some (.error e)⟩
      | some (.ok inputs) =>
        ⟨r0.1 ++ lp.1 ++ [.storeLoad inputs], some (.ok (some inputs))⟩

/-- Ascending-height order on network references (the projection of
`heightLe` along `toIdObject`). -/
def refHeightLe (a b : NetworkRef) : Prop :=
  a.historicBlock.height ≤ b.historicBlock.height

/-- A well-formed genealogy edge: the ancestor is no later than the
descendant and the edge is not a self-edge. -/
def goodEdge (e : NetworkGenealogyInput) : Prop :=
  e.ancestor.historicBlock.height ≤ e.descendant.historicBlock.height
    ∧ e.ancestor.id ≠ e.descendant.id

/-- Whether one chain query outcome is a transport-level failure. -/
def ChainOutcome.isFail : ChainOutcome → Bool
  | .fail _ => true
  | _ => false

/-- Whether an effect is the bulk `resources.load` persistence call. -/
def Effect.isLoad : Effect → Bool
  | .storeLoad _ => true
  | _ => false

/-- Whether a candidate's recorded `(height, hash)` matches what the chain
reports at that height, exactly as the code compares them. -/
def candidateMatches (chain : ChainFun) (c : Network) : Bool :=
  match chain c.historicBlock.height with
  | .block hash => hash == c.historicBlock.hash
  | _ => false

/-- Prefix of a list up to and including the first element satisfying `p`
(the whole list when no element does): the candidates actually examined by
a first-match scan. -/
def takeThrough (p : α → Bool) : List α → List α
  | [] => []
  | x :: xs => if p x then [x] else x :: takeThrough p xs

/-- Exclusion lists of the Store queries occurring in an effect trace, in
order. -/
def storeQueryExcls (trace : List Effect) : List (List String) :=
  trace.filterMap fun e =>
    match e with
    | .storeQuery _ _ tried _ => some tried
    | _ => none

/-- The Store-query exclusion lists of one candidate search form a chain:
the first equals the search's initial `alreadyTried`, and each subsequent
one equals the `alreadyTried` returned by the Store for the immediately
preceding query. -/
def exclChain (store : StoreFun) (relation : RelationKind) (networkId : String)
    (disableIndex : Bool) : List String → List (List String) → Prop
  | _, [] => True
  | tried, e :: rest =>
    e = tried ∧
      ∀ r, store relation networkId e disableIndex = .ok r →
        exclChain store relation networkId disableIndex r.alreadyTried rest

/-- Sample network `n1` at height 100. -/
def sampleN1 : Network :=
  ⟨"n1", ⟨"0xaa", 100⟩⟩

/-- Sample network `n2` at height 200. -/
def sampleN2 : Network :=
  ⟨"n2", ⟨"0xbb", 200⟩⟩

/-- A Store whose every query fails at the transport level. -/
def alwaysFailingStore : StoreFun :=
  fun _ _ _ _ => .error "ECONNREFUSED"

/-- A Store that always answers with an empty candidate batch, echoing the
exclusion list back. -/
def emptyReplyStore : StoreFun :=
  fun _ _ tried _ => .ok ⟨[], tried⟩

/-- A chain on which no block is ever found. -/
def deadChain : ChainFun :=
  fun _ => .noBlock

/-- A Store that, asked with an empty exclusion list, proposes `sampleN1`
itself as a candidate (a reply the code never guards against), and is
exhausted afterwards. -/
def selfReturningStore : StoreFun :=
  fun _ _ tried _ =>
    match tried with
    | [] => .ok ⟨[sampleN1], ["n1"]⟩
    | _ => .ok ⟨[], tried⟩

/-- A chain that confirms `sampleN1`'s historic block at height 100. -/
def confirmN1Chain : ChainFun :=
  fun h => if h = 100 then .block "0xaa" else .noBlock

/-- The self-edge on `sampleN1` that `process` builds from
`selfReturningStore`. -/
def selfEdgeN1 : NetworkGenealogyInput :=
  ⟨toIdObject sampleN1, toIdObject sampleN1⟩

/-- A candidate whose recorded hash is upper-case `"0xAA"`. -/
def upperHashCandidate : Network :=
  ⟨"nA", ⟨"0xAA", 100⟩⟩

/-- A chain that reports hash `"0xaa"` (lower-case) at every height. -/
def lowerHashChain : ChainFun :=
  fun _ => .block "0xaa"

/-- A chain whose every query fails at the transport level. -/
def failingChain : ChainFun :=
  fun _ => .fail "timeout"

/-- A Store that always proposes `sampleN1` as a candidate, marking it
tried. -/
def oneCandidateStore : StoreFun :=
  fun _ _ tried _ => .ok ⟨[sampleN1], "n1" :: tried⟩

/-- C1: claimed — when a Store query issued during candidate search fails,
the whole Genealogy Loader invocation fails with a `StoreQueryError`
propagated to its caller, not a crash from dereferencing a missing result,
and no edges are persisted.  The code instead catches the Store failure,
logs it, and then dereferences the undefined `result` — so the invocation
fails with a `TypeError` crash, never with a `StoreQueryError`; no edges
are persisted, but the error-typing half of the claim is violated by the
code (the spec itself flags this swallow-and-continue as a latent defect). -/
theorem cC1_store_failure_crashes_with_typeError (chain : ChainFun) :
    process alwaysFailingStore chain 1 [some sampleN1] false =
      ⟨[.storeQuery .ancestor "n1" [] false],
        some (.error
          (.typeError "Cannot read properties of undefined (reading networks)"))⟩
    ∧ (∀ msg, (process alwaysFailingStore chain 1 [some sampleN1] false).2 ≠
        some (.error (.storeQueryError msg)))
    ∧ ∀ inputs,
        Effect.storeLoad inputs ∉ (process alwaysFailingStore chain 1 [some sampleN1] false).1 := by
  refine ⟨rfl, ?_, ?_⟩
  · intro msg h
    rw [show (process alwaysFailingStore chain 1 [some sampleN1] false) =
      ⟨[.storeQuery .ancestor "n1" [] false],
        some (.error
          (.typeError "Cannot read properties of undefined (reading networks)"))⟩ from rfl] at h
    simp at h
  · intro inputs h
    rw [show (process alwaysFailingStore chain 1 [some sampleN1] false) =
      ⟨[.storeQuery .ancestor "n1" [] false],
        some (.error
          (.typeError "Cannot read properties of undefined (reading networks)"))⟩ from rfl] at h
    simp at h

/-- C2: claimed — on a batch whose entries are all absent, the Genealogy
Loader terminates normally as a no-op.  The code's early return only guards
the raw input's length, so for the non-empty all-absent batch `[undefined]`
the sorted batch is empty, `networks[0]` is `undefined`, and the pre-loop
ancestor lookup crashes with a `TypeError` (thrown evaluating `network.id`,
swallowed by the query's catch, then re-raised dereferencing the undefined
`result`).  No Store or Chain query is issued and nothing is persisted, but
the invocation crashes instead of terminating normally. -/
theorem cC2_all_absent_batch_crashes (store : StoreFun) (chain : ChainFun) :
    process store chain 1 [none] false =
      ⟨[], some (.error
        (.typeError "Cannot read properties of undefined (reading networks)"))⟩ :=
  rfl

/-- C10: counterexample — the claimed case/format normalization does not
exist: the code compares hashes with strict string equality, so the
candidate recording `"0xAA"` is not confirmed against a chain reporting
`"0xaa"` at its height (same hex value, different case), and the validator
returns no match. -/
theorem cC10_counterexample :
    findMatchingCandidateOnChain lowerHashChain [upperHashCandidate] =
      ⟨[.chainQuery 100], .ok none⟩
    ∧ "0xAA".data.map Char.toLower = "0xaa".data.map Char.toLower := by
  exact ⟨rfl, by decide⟩

/-- C10 amended: the Chain Validator's hash comparison is strict string
equality with no case/format normalization — when the chain reports block
hash `s` at the head candidate's height, the candidate is confirmed exactly
when `s` equals its recorded hash verbatim, and otherwise the scan moves on
to the remaining candidates. -/
theorem cC10_exact_hash_comparison (chain : ChainFun) (c : Network)
    (rest : List Network) (s : String)
    (h : chain c.historicBlock.height = .block s) :
    findMatchingCandidateOnChain chain (c :: rest) =
      if s = c.historicBlock.hash then
        ⟨[.chainQuery c.historicBlock.height], .ok (some (toIdObject c))⟩
      else
        ⟨.chainQuery c.historicBlock.height ::
           (findMatchingCandidateOnChain chain rest).1,
          (findMatchingCandidateOnChain chain rest).2⟩ := by
  by_cases hs : s = c.historicBlock.hash
  · simp [findMatchingCandidateOnChain, h, hs]
  · simp [findMatchingCandidateOnChain, h, hs]

/-- C10 amended, witness at the counterexample input: the chain reports
`"0xaa"`, the candidate records `"0xAA"`, and the comparison is literal. -/
theorem cC10_exact_hash_comparison_witness :
    lowerHashChain upperHashCandidate.historicBlock.height = .block "0xaa"
    ∧ findMatchingCandidateOnChain lowerHashChain [upperHashCandidate] =
        (if "0xaa" = upperHashCandidate.historicBlock.hash then
          ⟨[.chainQuery upperHashCandidate.historicBlock.height],
            .ok (some (toIdObject upperHashCandidate))⟩
        else
          ⟨.chainQuery upperHashCandidate.historicBlock.height ::
             (findMatchingCandidateOnChain lowerHashChain []).1,
            (findMatchingCandidateOnChain lowerHashChain []).2⟩) :=
  ⟨rfl, cC10_exact_hash_comparison lowerHashChain upperHashCandidate [] "0xaa" rfl⟩

/-- C4: in the pairwise walk of the sorted batch, adjacent entries with
equal id produce no edge, and collapsing duplicates keeps the edge to the
next distinct entry: a sorted batch `[A, A, B]` with `A.id ≠ B.id` yields
exactly the single edge `A → B`, and a batch of two entries with the same
id (and hence the same record here) yields zero pairwise edges. -/
theorem cC4_duplicate_collapse :
    (∀ A B : Network, A.id ≠ B.id → heightLe A B →
       (collectNetworks [some A, some A, some B]).2 =
         [⟨toIdObject A, toIdObject B⟩])
    ∧ ∀ A : Network, (collectNetworks [some A, some A]).2 = [] := by
  constructor
  · intro A B hid hle
    have hAA : heightLe A A := le_refl _
    simp [collectNetworks, sortedNetworks, List.insertionSort, List.orderedInsert,
      hle, hAA, collectStep, toIdObject, hid]
  · intro A
    have hAA : heightLe A A := le_refl _
    simp [collectNetworks, sortedNetworks, List.insertionSort, List.orderedInsert,
      hAA, collectStep, toIdObject]

/-- C4 witness at the concrete networks `n1` (height 100) and `n2`
(height 200). -/
theorem cC4_duplicate_collapse_witness :
    sampleN1.id ≠ sampleN2.id ∧ heightLe sampleN1 sampleN2 ∧
    (collectNetworks [some sampleN1, some sampleN1, some sampleN2]).2 =
      [⟨toIdObject sampleN1, toIdObject sampleN2⟩] :=
  ⟨by decide, by decide,
    cC4_duplicate_collapse.1 sampleN1 sampleN2 (by decide) (by decide)⟩

/-- C8: a chain query that finds no block at the requested height is a
non-match and the validator continues with the remaining candidates; a
transport-level failure of a single chain query aborts the validator with a
`ChainQueryError`, and that error propagates out of the enclosing
`findRelation` iteration — a typed error, distinguished from the untyped
absence of a match. -/
theorem cC8_missing_block_vs_transport_failure :
    (∀ (chain : ChainFun) (c : Network) (rest : List Network),
       chain c.historicBlock.height = .noBlock →
       findMatchingCandidateOnChain chain (c :: rest) =
         ⟨.chainQuery c.historicBlock.height ::
            (findMatchingCandidateOnChain chain rest).1,
          (findMatchingCandidateOnChain chain rest).2⟩)
    ∧ (∀ (chain : ChainFun) (c : Network) (rest : List Network) (msg : String),
       chain c.historicBlock.height = .fail msg →
       findMatchingCandidateOnChain chain (c :: rest) =
         ⟨[.chainQuery c.historicBlock.height], .error (.chainQueryError msg)⟩)
    ∧ ∀ (store : StoreFun) (chain : ChainFun) (relation : RelationKind)
        (network : Option NetworkRef) (d : Bool) (fuel : Nat)
        (tried : List String) (result : CandidateSearchResult) (msg : String),
       (queryNextPossiblyRelatedNetworks store relation network tried d).2 = .ok result →
       (findMatchingCandidateOnChain chain result.networks).2 =
         .error (.chainQueryError msg) →
       (findRelationAux store chain relation network d (fuel + 1) tried).2 =
         some (.error (.chainQueryError msg)) := by
  refine ⟨?_, ?_, ?_⟩
  · intro chain c rest h
    simp [findMatchingCandidateOnChain, h]
  · intro chain c rest msg h
    simp [findMatchingCandidateOnChain, h]
  · intro store chain relation network d fuel tried result msg hq hm
    simp only [findRelationAux, hq, hm]

/-- C8 witness: a dead chain skips `sampleN1` as a non-match; a failing
chain aborts with `ChainQueryError "timeout"`, which propagates out of the
search iteration driven by a Store proposing `sampleN1`. -/
theorem cC8_missing_block_vs_transport_failure_witness :
    (findMatchingCandidateOnChain deadChain [sampleN1] =
       ⟨.chainQuery sampleN1.historicBlock.height ::
          (findMatchingCandidateOnChain deadChain []).1,
        (findMatchingCandidateOnChain deadChain []).2⟩)
    ∧ (findMatchingCandidateOnChain failingChain [sampleN1] =
       ⟨[.chainQuery sampleN1.historicBlock.height],
         .error (.chainQueryError "timeout")⟩)
    ∧ (findRelationAux oneCandidateStore failingChain .ancestor
         (some (toIdObject sampleN2)) false 1 []).2 =
       some (.error (.chainQueryError "timeout")) :=
  ⟨cC8_missing_block_vs_transport_failure.1 deadChain sampleN1 [] rfl,
   cC8_missing_block_vs_transport_failure.2.1 failingChain sampleN1 [] "timeout" rfl,
   cC8_missing_block_vs_transport_failure.2.2 oneCandidateStore failingChain .ancestor
     (some (toIdObject sampleN2)) false 0 [] ⟨[sampleN1], ["n1"]⟩ "timeout" rfl rfl⟩

/-- C5: for every ordered candidate list on a chain whose queried heights
do not fail, the Chain Validator returns the first candidate in list order
whose recorded `(height, hash)` matches the chain (`none` when no candidate
matches), and its chain-query trace stops at the match, so no candidate
after the first match is queried; in particular `[A(mismatch), B(match),
C(match or not)]` yields `B` with only `A` and `B` queried. -/
theorem cC5_first_match_wins :
    (∀ (chain : ChainFun) (candidates : List Network),
       (∀ c ∈ candidates, (chain c.historicBlock.height).isFail = false) →
       findMatchingCandidateOnChain chain candidates =
         ⟨(takeThrough (candidateMatches chain) candidates).map
            (fun c => .chainQuery c.historicBlock.height),
          .ok ((candidates.find? (candidateMatches chain)).map toIdObject)⟩)
    ∧ ∀ (chain : ChainFun) (A B C : Network),
       candidateMatches chain A = false → candidateMatches chain B = true →
       (chain A.historicBlock.height).isFail = false →
       findMatchingCandidateOnChain chain [A, B, C] =
         ⟨[.chainQuery A.historicBlock.height, .chainQuery B.historicBlock.height],
           .ok (some (toIdObject B))⟩ := by
  constructor
  · intro chain candidates hok
    induction candidates with
    | nil => simp [findMatchingCandidateOnChain, takeThrough]
    | cons c rest ih =>
      have hoc := hok c (by simp)
      have ih' := ih fun x hx => hok x (by simp [hx])
      cases hc : chain c.historicBlock.height with
      | fail msg => rw [hc] at hoc; simp [ChainOutcome.isFail] at hoc
      | noBlock =>
        have hp : candidateMatches chain c = false := by
          simp [candidateMatches, hc]
        simp [findMatchingCandidateOnChain, hc, takeThrough, hp, ih',
          List.find?_cons_of_neg]
      | block hash =>
        by_cases hs : hash = c.historicBlock.hash
        · have hp : candidateMatches chain c = true := by
            simp [candidateMatches, hc, hs]
          simp [findMatchingCandidateOnChain, hc, hs, takeThrough, hp,
            List.find?_cons_of_pos]
        · have hp : candidateMatches chain c = false := by
            simp [candidateMatches, hc, hs]
          simp [findMatchingCandidateOnChain, hc, hs, takeThrough, hp, ih',
            List.find?_cons_of_neg]
  · intro chain A B C hA hB hokA
    have hBmatch : ∃ s, chain B.historicBlock.height = .block s
        ∧ s = B.historicBlock.hash := by
      unfold candidateMatches at hB
      cases hcb : chain B.historicBlock.height with
      | fail m => rw [hcb] at hB; simp at hB
      | noBlock => rw [hcb] at hB; simp at hB
      | block s => rw [hcb] at hB; simp at hB; exact ⟨s, rfl, hB⟩
    obtain ⟨s, hcb, hsb⟩ := hBmatch
    cases hca : chain A.historicBlock.height with
    | fail m => rw [hca] at hokA; simp [ChainOutcome.isFail] at hokA
    | noBlock => simp [findMatchingCandidateOnChain, hca, hcb, hsb]
    | block t =>
      have ht : ¬ t = A.historicBlock.hash := by
        intro h
        unfold candidateMatches at hA
        rw [hca] at hA
        simp [h] at hA
      simp [findMatchingCandidateOnChain, hca, ht, hcb, hsb]

/-- C5 witness: on the empty candidate list the validator reports no match,
and on `[n2(no block), n1(match), n2]` over the chain confirming `n1` it
returns `n1` after querying exactly heights 200 and 100. -/
theorem cC5_first_match_wins_witness :
    findMatchingCandidateOnChain deadChain [] =
      ⟨(takeThrough (candidateMatches deadChain) []).map
         (fun c => .chainQuery c.historicBlock.height),
       .ok ((List.find? (candidateMatches deadChain) []).map toIdObject)⟩
    ∧ findMatchingCandidateOnChain confirmN1Chain [sampleN2, sampleN1, sampleN2] =
        ⟨[.chainQuery sampleN2.historicBlock.height,
          .chainQuery sampleN1.historicBlock.height],
          .ok (some (toIdObject sampleN1))⟩ :=
  ⟨cC5_first_match_wins.1 deadChain [] (by simp),
   cC5_first_match_wins.2 confirmN1Chain sampleN2 sampleN1 sampleN2
     (by decide) (by decide) (by decide)⟩

/-- The network list returned by `collectNetworks` is the sorted present
batch projected to id objects (also in the empty case). -/
theorem collectNetworks_fst (input : List (Option Network)) :
    (collectNetworks input).1 = (sortedNetworks input).map toIdObject := by
  unfold collectNetworks
  cases (sortedNetworks input).map toIdObject <;> rfl

/-- On a non-empty sorted batch, the edges returned by `collectNetworks`
are those accumulated by the pairwise reduction. -/
theorem collectNetworks_snd_cons (input : List (Option Network))
    (first : NetworkRef) (rest : List NetworkRef)
    (h : (sortedNetworks input).map toIdObject = first :: rest) :
    (collectNetworks input).2 = (rest.foldl collectStep ⟨first, []⟩).2 := by
  unfold collectNetworks
  rw [h]

/-- On an empty sorted batch, `collectNetworks` returns no edges. -/
theorem collectNetworks_snd_nil (input : List (Option Network))
    (h : (sortedNetworks input).map toIdObject = []) :
    (collectNetworks input).2 = [] := by
  unfold collectNetworks
  rw [h]

/-- Edges accumulated by the collect reduction are well formed whenever the
running ancestor followed by the remaining descendants is height-sorted and
the edges already accumulated are well formed. -/
theorem foldl_collectStep_goodEdges :
    ∀ (rest : List NetworkRef) (anc : NetworkRef)
      (edges : List NetworkGenealogyInput),
      List.Sorted refHeightLe (anc :: rest) →
      (∀ e ∈ edges, goodEdge e) →
      ∀ e ∈ (rest.foldl collectStep ⟨anc, edges⟩).2, goodEdge e := by
  intro rest
  induction rest with
  | nil => intro anc edges _ h e he; exact h e he
  | cons d rest ih =>
    intro anc edges hsort hgood e he
    have h1 : refHeightLe anc d := (List.sorted_cons.mp hsort).1 d (by simp)
    have h2 : List.Sorted refHeightLe (d :: rest) :=
      (List.sorted_cons.mp hsort).2
    rw [List.foldl_cons] at he
    by_cases hid : anc.id = d.id
    · have hstep : collectStep ⟨anc, edges⟩ d = ⟨d, edges⟩ := by
        simp [collectStep, hid]
      rw [hstep] at he
      exact ih d edges h2 hgood e he
    · have hstep : collectStep ⟨anc, edges⟩ d = ⟨d, edges ++ [⟨anc, d⟩]⟩ := by
        simp [collectStep, hid]
      rw [hstep] at he
      refine ih d _ h2 ?_ e he
      intro e' he'
      rcases List.mem_append.mp he' with h | h
      · exact hgood e' h
      · simp at h
        subst h
        exact ⟨h1, hid⟩

/-- Every pairwise edge built by `collectNetworks` is well formed: heights
are non-decreasing along the sorted batch and the id-equality guard rules
out self-edges. -/
theorem collectNetworks_edges_good (input : List (Option Network)) :
    ∀ e ∈ (collectNetworks input).2, goodEdge e := by
  have hsorted : List.Sorted heightLe (sortedNetworks input) :=
    List.sorted_insertionSort heightLe (input.filterMap id)
  have hmap : List.Sorted refHeightLe ((sortedNetworks input).map toIdObject) :=
    List.Pairwise.map toIdObject (fun _ _ h => h) hsorted
  intro e he
  cases hm : (sortedNetworks input).map toIdObject with
  | nil =>
    rw [collectNetworks_snd_nil input hm] at he
    simp at he
  | cons first rest =>
    rw [collectNetworks_snd_cons input first rest hm] at he
    have hsc : List.Sorted refHeightLe (first :: rest) := hm ▸ hmap
    exact foldl_collectStep_goodEdges rest first [] hsc (by simp) e he

/-- C3: on every non-empty sparse batch, the Lineage Collector's output
network list is sorted ascending by `historicBlock.height` and every output
entry is the projection of a present input entry (no absent entries), and
every pairwise edge satisfies `ancestor.height ≤ descendant.height` and
`ancestor.id ≠ descendant.id`. -/
theorem cC3_collector_sorted_and_edges_good (input : List (Option Network))
    (_hne : input ≠ []) :
    List.Sorted refHeightLe (collectNetworks input).1
    ∧ (∀ r ∈ (collectNetworks input).1, ∃ n, some n ∈ input ∧ toIdObject n = r)
    ∧ ∀ e ∈ (collectNetworks input).2, goodEdge e := by
  have hsorted : List.Sorted heightLe (sortedNetworks input) :=
    List.sorted_insertionSort heightLe (input.filterMap id)
  have hmap : List.Sorted refHeightLe ((sortedNetworks input).map toIdObject) :=
    List.Pairwise.map toIdObject (fun _ _ h => h) hsorted
  refine ⟨?_, ?_, collectNetworks_edges_good input⟩
  · rw [collectNetworks_fst]
    exact hmap
  · intro r hr
    rw [collectNetworks_fst] at hr
    obtain ⟨n, hn, hn'⟩ := List.mem_map.mp hr
    have hn2 : n ∈ input.filterMap id := by
      simpa [sortedNetworks] using hn
    obtain ⟨a, ha, ha'⟩ := List.mem_filterMap.mp hn2
    refine ⟨n, ?_, hn'⟩
    have ha2 : a = some n := by simpa using ha'
    exact ha2 ▸ ha

/-- C3 witness at the concrete unsorted batch `[n2, n1]`. -/
theorem cC3_collector_sorted_and_edges_good_witness :
    (([some sampleN2, some sampleN1] : List (Option Network)) ≠ [])
    ∧ (List.Sorted refHeightLe (collectNetworks [some sampleN2, some sampleN1]).1
       ∧ (∀ r ∈ (collectNetworks [some sampleN2, some sampleN1]).1,
            ∃ n, some n ∈ [some sampleN2, some sampleN1] ∧ toIdObject n = r)
       ∧ ∀ e ∈ (collectNetworks [some sampleN2, some sampleN1]).2, goodEdge e) :=
  ⟨by decide,
   cC3_collector_sorted_and_edges_good [some sampleN2, some sampleN1] (by decide)⟩

/-- Effects yielded by the Chain Validator are never persistence calls. -/
theorem findMatching_no_load (chain : ChainFun) :
    ∀ candidates e, e ∈ (findMatchingCandidateOnChain chain candidates).1 →
      e.isLoad = false := by
  intro candidates
  induction candidates with
  | nil => intro e he; simp [findMatchingCandidateOnChain] at he
  | cons c rest ih =>
    intro e he
    simp only [findMatchingCandidateOnChain] at he
    cases hc : chain c.historicBlock.height with
    | fail m =>
      rw [hc] at he
      simp at he
      subst he
      rfl
    | noBlock =>
      rw [hc] at he
      simp at he
      rcases he with he | he
      · subst he; rfl
      · exact ih e he
    | block s =>
      rw [hc] at he
      by_cases hs : s = c.historicBlock.hash
      · simp [hs] at he
        subst he
        rfl
      · simp [hs] at he
        rcases he with he | he
        · subst he; rfl
        · exact ih e he

/-- Effects yielded by one Store candidate query are never persistence
calls. -/
theorem queryNext_no_load (store : StoreFun) (relation : RelationKind)
    (network : Option NetworkRef) (tried : List String) (d : Bool) :
    ∀ e ∈ (queryNextPossiblyRelatedNetworks store relation network tried d).1,
      e.isLoad = false := by
  cases network with
  | none => simp [queryNextPossiblyRelatedNetworks]
  | some n =>
    cases hs : store relation n.id tried d <;>
      simp [queryNextPossiblyRelatedNetworks, hs, Effect.isLoad]

/-- Effects yielded by the candidate-search loop are never persistence
calls. -/
theorem findRelationAux_no_load (store : StoreFun) (chain : ChainFun)
    (relation : RelationKind) (network : Option NetworkRef) (d : Bool) :
    ∀ fuel tried e,
      e ∈ (findRelationAux store chain relation network d fuel tried).1 →
      e.isLoad = false := by
  intro fuel
  induction fuel with
  | zero => intro tried e he; simp [findRelationAux] at he
  | succ fuel ih =>
    intro tried e he
    simp only [findRelationAux] at he
    split at he
    · simp at he
      exact queryNext_no_load store relation network tried d e he
    · split at he
      · simp at he
        rcases he with he | he
        · exact queryNext_no_load store relation network tried d e he
        · exact findMatching_no_load chain _ e he
      · simp at he
        rcases he with he | he
        · exact queryNext_no_load store relation network tried d e he
        · exact findMatching_no_load chain _ e he
      · split at he
        · simp at he
          rcases he with he | he | he
          · exact queryNext_no_load store relation network tried d e he
          · exact findMatching_no_load chain _ e he
          · exact ih _ e he
        · simp at he
          rcases he with he | he
          · exact queryNext_no_load store relation network tried d e he
          · exact findMatching_no_load chain _ e he

/-- Effects yielded by the main per-network search loop of `process` are
never persistence calls. -/
theorem processLoop_no_load (store : StoreFun) (chain : ChainFun) (d : Bool)
    (fuel : Nat) :
    ∀ networks acc e,
      e ∈ (processLoop store chain d fuel networks acc).1 → e.isLoad = false := by
  intro networks
  induction networks with
  | nil => intro acc e he; simp [processLoop] at he
  | cons network rest ih =>
    intro acc e he
    simp only [processLoop] at he
    split at he
    · simp at he
      exact findRelationAux_no_load store chain .ancestor (some network) d fuel [] e he
    · simp at he
      exact findRelationAux_no_load store chain .ancestor (some network) d fuel [] e he
    · split at he
      · simp at he
        rcases he with he | he
        · exact findRelationAux_no_load store chain .ancestor (some network) d fuel [] e he
        · exact findRelationAux_no_load store chain .descendant (some network) d fuel [] e he
      · simp at he
        rcases he with he | he
        · exact findRelationAux_no_load store chain .ancestor (some network) d fuel [] e he
        · exact findRelationAux_no_load store chain .descendant (some network) d fuel [] e he
      · simp at he
        rcases he with he | he | he
        · exact findRelationAux_no_load store chain .ancestor (some network) d fuel [] e he
        · exact findRelationAux_no_load store chain .descendant (some network) d fuel [] e he
        · exact ih _ e he

/-- C7: in every invocation of `process`, persistence is a single bulk
load: either the effect trace ends with exactly one `storeLoad` of the
accumulated edge list and the invocation succeeded with those edges (all
earlier effects being queries), or the trace contains no persistence effect
at all and the invocation did not succeed with a loaded edge list — in
particular any Store/Chain error (or fuel exhaustion) during the search
phase persists nothing. -/
theorem cC7_single_atomic_load (store : StoreFun) (chain : ChainFun)
    (fuel : Nat) (input : List (Option Network)) (d : Bool) :
    (∃ t inputs,
       (process store chain fuel input d).1 = t ++ [.storeLoad inputs]
       ∧ (∀ e ∈ t, e.isLoad = false)
       ∧ (process store chain fuel input d).2 = some (.ok (some inputs)))
    ∨ ((∀ e ∈ (process store chain fuel input d).1, e.isLoad = false)
       ∧ ∀ inputs, (process store chain fuel input d).2 ≠ some (.ok (some inputs))) := by
  by_cases hempty : input.length = 0
  · right
    constructor
    · intro e he
      simp [process, hempty] at he
    · intro inputs h
      simp [process, hempty] at h
  · have hnoload1 := findRelationAux_no_load store chain .ancestor
      (collectNetworks input).1.head? d fuel []
    have hnoload2 := processLoop_no_load store chain d fuel
      (collectNetworks input).1 (collectNetworks input).2
    cases hr0 : (findRelation store chain .ancestor (collectNetworks input).1.head? d fuel).2 with
    | none =>
      right
      constructor
      · intro e he
        simp only [process, if_neg hempty] at he
        rw [hr0] at he
        exact hnoload1 e he
      · intro inputs h
        simp only [process, if_neg hempty] at h
        rw [hr0] at h
        simp at h
    | some r0 =>
      cases r0 with
      | error err =>
        right
        constructor
        · intro e he
          simp only [process, if_neg hempty] at he
          rw [hr0] at he
          exact hnoload1 e he
        · intro inputs h
          simp only [process, if_neg hempty] at h
          rw [hr0] at h
          simp at h
      | ok r0v =>
        cases hlp : (processLoop store chain d fuel (collectNetworks input).1 (collectNetworks input).2).2 with
        | none =>
          right
          constructor
          · intro e he
            simp only [process, if_neg hempty] at he
            rw [hr0, hlp] at he
            simp at he
            rcases he with he | he
            · exact hnoload1 e he
            · exact hnoload2 e he
          · intro inputs h
            simp only [process, if_neg hempty] at h
            rw [hr0, hlp] at h
            simp at h
        | some lp =>
          cases lp with
          | error err =>
            right
            constructor
            · intro e he
              simp only [process, if_neg hempty] at he
              rw [hr0, hlp] at he
              simp at he
              rcases he with he | he
              · exact hnoload1 e he
              · exact hnoload2 e he
            · intro inputs h
              simp only [process, if_neg hempty] at h
              rw [hr0, hlp] at h
              simp at h
          | ok inputs =>
            left
            refine ⟨(findRelation store chain .ancestor (collectNetworks input).1.head? d fuel).1
              ++ (processLoop store chain d fuel (collectNetworks input).1 (collectNetworks input).2).1,
              inputs, ?_, ?_, ?_⟩
            · simp only [process, if_neg hempty]
              rw [hr0, hlp]
            · intro e he
              rcases List.mem_append.mp he with he | he
              · exact hnoload1 e he
              · exact hnoload2 e he
            · simp only [process, if_neg hempty]
              rw [hr0, hlp]

/-- A Store query for a present network always yields exactly one
`storeQuery` effect carrying the exclusion list it was passed. -/
theorem queryNext_some_fst (store : StoreFun) (relation : RelationKind)
    (n : NetworkRef) (tried : List String) (d : Bool) :
    (queryNextPossiblyRelatedNetworks store relation (some n) tried d).1 =
      [.storeQuery relation n.id tried d] := by
  cases hs : store relation n.id tried d <;>
    simp [queryNextPossiblyRelatedNetworks, hs]

/-- A Store query for a present network succeeds exactly when the Store
oracle does, with the same reply. -/
theorem queryNext_some_ok (store : StoreFun) (relation : RelationKind)
    (n : NetworkRef) (tried : List String) (d : Bool)
    (result : CandidateSearchResult) :
    (queryNextPossiblyRelatedNetworks store relation (some n) tried d).2 = .ok result ↔
      store relation n.id tried d = .ok result := by
  cases hs : store relation n.id tried d <;>
    simp [queryNextPossiblyRelatedNetworks, hs]

/-- The Chain Validator issues no Store queries. -/
theorem storeQueryExcls_findMatching (chain : ChainFun) :
    ∀ candidates,
      storeQueryExcls (findMatchingCandidateOnChain chain candidates).1 = [] := by
  intro candidates
  induction candidates with
  | nil => simp [findMatchingCandidateOnChain, storeQueryExcls]
  | cons c rest ih =>
    simp only [findMatchingCandidateOnChain]
    cases hc : chain c.historicBlock.height with
    | fail m => simp [storeQueryExcls]
    | noBlock =>
      simp only [storeQueryExcls, List.filterMap_cons] at ih ⊢
      simpa using ih
    | block s =>
      by_cases hs : s = c.historicBlock.hash
      · simp [hs, storeQueryExcls]
      · simp only [hs, if_false, storeQueryExcls, List.filterMap_cons] at ih ⊢
        simpa using ih

/-- Exclusion lists extracted from concatenated traces concatenate. -/
theorem storeQueryExcls_append (a b : List Effect) :
    storeQueryExcls (a ++ b) = storeQueryExcls a ++ storeQueryExcls b := by
  simp [storeQueryExcls, List.filterMap_append]

/-- Exclusion-list threading of the candidate-search loop: starting from
any `alreadyTried`, the Store queries it issues pass, in order, first that
list and then always exactly the `alreadyTried` returned by the Store for
the immediately preceding query. -/
theorem findRelationAux_exclChain (store : StoreFun) (chain : ChainFun)
    (relation : RelationKind) (n : NetworkRef) (d : Bool) :
    ∀ fuel tried,
      exclChain store relation n.id d tried
        (storeQueryExcls (findRelationAux store chain relation (some n) d fuel tried).1) := by
  intro fuel
  induction fuel with
  | zero => intro tried; simp [findRelationAux, storeQueryExcls, exclChain]
  | succ fuel ih =>
    intro tried
    simp only [findRelationAux]
    split
    · rw [queryNext_some_fst]
      simp [storeQueryExcls, exclChain]
    · next result heq =>
      have hsr : store relation n.id tried d = .ok result :=
        (queryNext_some_ok store relation n tried d result).mp heq
      split
      · rw [storeQueryExcls_append, queryNext_some_fst, storeQueryExcls_findMatching]
        simp [storeQueryExcls, exclChain]
      · rw [storeQueryExcls_append, queryNext_some_fst, storeQueryExcls_findMatching]
        simp [storeQueryExcls, exclChain]
      · split
        · rw [storeQueryExcls_append, storeQueryExcls_append, queryNext_some_fst,
            storeQueryExcls_findMatching]
          simp only [storeQueryExcls, List.filterMap_cons, List.filterMap_nil,
            List.nil_append, List.append_nil]
          refine ⟨rfl, ?_⟩
          intro r hr
          rw [hsr] at hr
          injection hr with hr'
          subst hr'
          exact ih result.alreadyTried
        · rw [storeQueryExcls_append, queryNext_some_fst, storeQueryExcls_findMatching]
          simp [storeQueryExcls, exclChain]

/-- Termination of the candidate-search loop: if the Store honors the
exclusion list (returned candidates are never already excluded), returns
candidates from a finite universe `U`, and grows `alreadyTried`
monotonically to cover each reply's candidates, then the loop halts (does
not exhaust its fuel) once the fuel exceeds the number of not-yet-excluded
ids of `U`. -/
theorem findRelationAux_terminates (store : StoreFun) (chain : ChainFun)
    (relation : RelationKind) (n : NetworkRef) (d : Bool) (U : Finset String)
    (hstore : ∀ tried r, store relation n.id tried d = .ok r →
        (∀ c ∈ r.networks, c.id ∉ tried ∧ c.id ∈ U ∧ c.id ∈ r.alreadyTried)
        ∧ ∀ x ∈ tried, x ∈ r.alreadyTried) :
    ∀ fuel tried, (U \ tried.toFinset).card < fuel →
      (findRelationAux store chain relation (some n) d fuel tried).2 ≠ none := by
  intro fuel
  induction fuel with
  | zero => intro tried h; exact absurd h (Nat.not_lt_zero _)
  | succ fuel ih =>
    intro tried hcard
    simp only [findRelationAux]
    split
    · simp
    · next result heq =>
      have hsr : store relation n.id tried d = .ok result :=
        (queryNext_some_ok store relation n tried d result).mp heq
      split
      · simp
      · simp
      · split
        · next hlen =>
          show (findRelationAux store chain relation (some n) d fuel
            result.alreadyTried).2 ≠ none
          apply ih
          obtain ⟨hmem, hgrow⟩ := hstore tried result hsr
          obtain ⟨c, hc⟩ := List.exists_mem_of_length_pos hlen
          obtain ⟨h1, h2, h3⟩ := hmem c hc
          have hss : U \ result.alreadyTried.toFinset ⊂ U \ tried.toFinset := by
            constructor
            · intro x hx
              rw [Finset.mem_sdiff] at hx ⊢
              refine ⟨hx.1, ?_⟩
              intro hxt
              exact hx.2 (List.mem_toFinset.mpr (hgrow x (List.mem_toFinset.mp hxt)))
            · intro hsub
              have hcin : c.id ∈ U \ tried.toFinset := by
                rw [Finset.mem_sdiff]
                exact ⟨h2, fun hx => h1 (List.mem_toFinset.mp hx)⟩
              have := hsub hcin
              rw [Finset.mem_sdiff] at this
              exact this.2 (List.mem_toFinset.mpr h3)
          have := Finset.card_lt_card hss
          omega
        · simp

/-- C6: each Store query of a `(network, relation)` candidate search passes
as exclusion list exactly the `alreadyTried` returned by the immediately
preceding Store query of that search (the empty list for the first query),
so no already-tried id is ever requested again; and assuming the Store
honors the exclusion list over a finite universe `U` of candidate ids while
growing `alreadyTried` accordingly, the search loop needs at most
`U.card + 1` iterations — with that much fuel it never exhausts it,
terminating by confirmation, by an empty candidate batch, or by a
propagated failure. -/
theorem cC6_exclusion_threading_and_termination :
    (∀ (store : StoreFun) (chain : ChainFun) (relation : RelationKind)
       (n : NetworkRef) (d : Bool) (fuel : Nat),
       exclChain store relation n.id d []
         (storeQueryExcls (findRelation store chain relation (some n) d fuel).1))
    ∧ ∀ (store : StoreFun) (chain : ChainFun) (relation : RelationKind)
        (n : NetworkRef) (d : Bool) (U : Finset String),
        (∀ tried r, store relation n.id tried d = .ok r →
           (∀ c ∈ r.networks, c.id ∉ tried ∧ c.id ∈ U ∧ c.id ∈ r.alreadyTried)
           ∧ ∀ x ∈ tried, x ∈ r.alreadyTried) →
        (findRelation store chain relation (some n) d (U.card + 1)).2 ≠ none :=
  ⟨fun store chain relation n d fuel =>
     findRelationAux_exclChain store chain relation n d fuel [],
   fun store chain relation n d U h =>
     findRelationAux_terminates store chain relation n d U h (U.card + 1) []
       (by simp)⟩

/-- C6 witness: the exhausted Store echoing its exclusion list back
satisfies the Store contract over the empty universe, and the search on it
terminates within one iteration; the threading property holds on its
trace. -/
theorem cC6_exclusion_threading_and_termination_witness :
    exclChain emptyReplyStore .ancestor (toIdObject sampleN1).id false []
      (storeQueryExcls (findRelation emptyReplyStore deadChain .ancestor
        (some (toIdObject sampleN1)) false 3).1)
    ∧ (∀ tried r,
         emptyReplyStore .ancestor (toIdObject sampleN1).id tried false = .ok r →
         (∀ c ∈ r.networks,
            c.id ∉ tried ∧ c.id ∈ (∅ : Finset String) ∧ c.id ∈ r.alreadyTried)
         ∧ ∀ x ∈ tried, x ∈ r.alreadyTried)
    ∧ (findRelation emptyReplyStore deadChain .ancestor
        (some (toIdObject sampleN1)) false ((∅ : Finset String).card + 1)).2 ≠ none :=
  have hyp : ∀ tried r,
      emptyReplyStore .ancestor (toIdObject sampleN1).id tried false = .ok r →
      (∀ c ∈ r.networks,
         c.id ∉ tried ∧ c.id ∈ (∅ : Finset String) ∧ c.id ∈ r.alreadyTried)
      ∧ ∀ x ∈ tried, x ∈ r.alreadyTried := by
    intro tried r hr
    injection hr with hr'
    subst hr'
    exact ⟨by simp, fun x hx => hx⟩
  ⟨cC6_exclusion_threading_and_termination.1 emptyReplyStore deadChain .ancestor
     (toIdObject sampleN1) false 3,
   hyp,
   cC6_exclusion_threading_and_termination.2 emptyReplyStore deadChain .ancestor
     (toIdObject sampleN1) false ∅ hyp⟩

/-- A candidate confirmed by the Chain Validator is the projection of one
of the candidates it was given. -/
theorem findMatching_ok_some_mem (chain : ChainFun) :
    ∀ candidates m,
      (findMatchingCandidateOnChain chain candidates).2 = .ok (some m) →
      ∃ c ∈ candidates, m = toIdObject c := by
  intro candidates
  induction candidates with
  | nil => intro m h; simp [findMatchingCandidateOnChain] at h
  | cons c rest ih =>
    intro m h
    simp only [findMatchingCandidateOnChain] at h
    cases hc : chain c.historicBlock.height with
    | fail mm => rw [hc] at h; simp at h
    | noBlock =>
      rw [hc] at h
      simp only at h
      obtain ⟨c', hc', hm⟩ := ih m h
      exact ⟨c', by simp [hc'], hm⟩
    | block s =>
      rw [hc] at h
      by_cases hs : s = c.historicBlock.hash
      · simp [hs] at h
        exact ⟨c, by simp, h.symm⟩
      · simp only [hs, if_false] at h
        obtain ⟨c', hc', hm⟩ := ih m h
        exact ⟨c', by simp [hc'], hm⟩

/-- A relation confirmed by the candidate-search loop is the projection of
a candidate proposed by the Store in some reply of that search, queried
with the searched network's id. -/
theorem findRelationAux_found_from_store (store : StoreFun) (chain : ChainFun)
    (relation : RelationKind) (n : NetworkRef) (d : Bool) :
    ∀ fuel tried m,
      (findRelationAux store chain relation (some n) d fuel tried).2 =
        some (.ok (some m)) →
      ∃ tried' r, store relation n.id tried' d = .ok r
        ∧ ∃ c ∈ r.networks, m = toIdObject c := by
  intro fuel
  induction fuel with
  | zero => intro tried m h; simp [findRelationAux] at h
  | succ fuel ih =>
    intro tried m h
    simp only [findRelationAux] at h
    split at h
    · simp at h
    · next result heq =>
      have hsr : store relation n.id tried d = .ok result :=
        (queryNext_some_ok store relation n tried d result).mp heq
      split at h
      · simp at h
      · next mc heqm =>
        simp at h
        subst h
        exact ⟨tried, result, hsr, findMatching_ok_some_mem chain _ _ heqm⟩
      · split at h
        · exact ih _ m h
        · simp at h

/-- If the Store never proposes the queried network itself as a candidate,
then the per-network search loop of `process` preserves absence of
self-edges in the accumulated edge list. -/
theorem processLoop_no_self_edges (store : StoreFun) (chain : ChainFun)
    (d : Bool) (fuel : Nat)
    (hstore : ∀ rel nid tried r, store rel nid tried d = .ok r →
        ∀ c ∈ r.networks, c.id ≠ nid) :
    ∀ networks acc,
      (∀ e ∈ acc, e.ancestor.id ≠ e.descendant.id) →
      ∀ res, (processLoop store chain d fuel networks acc).2 = some (.ok res) →
        ∀ e ∈ res, e.ancestor.id ≠ e.descendant.id := by
  intro networks
  induction networks with
  | nil =>
    intro acc hacc res h e he
    simp [processLoop] at h
    subst h
    exact hacc e he
  | cons network rest ih =>
    intro acc hacc res h e he
    simp only [processLoop] at h
    split at h
    · simp at h
    · simp at h
    · next ancestorFound heqa =>
      split at h
      · simp at h
      · simp at h
      · next descendantFound heqd =>
        refine ih _ ?_ res h e he
        intro e' he'
        cases descendantFound with
        | none =>
          cases ancestorFound with
          | none => exact hacc e' he'
          | some anc =>
            rcases List.mem_append.mp he' with h' | h'
            · exact hacc e' h'
            · simp at h'
              subst h'
              obtain ⟨tried', r, hsr, c, hcr, hmc⟩ :=
                findRelationAux_found_from_store store chain .ancestor network d
                  fuel [] anc heqa
              subst hmc
              exact hstore .ancestor network.id tried' r hsr c hcr
        | some desc =>
          rcases List.mem_append.mp he' with h' | h'
          · cases ancestorFound with
            | none => exact hacc e' h'
            | some anc =>
              rcases List.mem_append.mp h' with h'' | h''
              · exact hacc e' h''
              · simp at h''
                subst h''
                obtain ⟨tried', r, hsr, c, hcr, hmc⟩ :=
                  findRelationAux_found_from_store store chain .ancestor network d
                    fuel [] anc heqa
                subst hmc
                exact hstore .ancestor network.id tried' r hsr c hcr
          · simp at h'
            subst h'
            obtain ⟨tried', r, hsr, c, hcr, hmc⟩ :=
              findRelationAux_found_from_store store chain .descendant network d
                fuel [] desc heqd
            subst hmc
            exact fun hne =>
              hstore .descendant network.id tried' r hsr c hcr hne.symm

/-- C9: counterexample — the code never guards confirmed cross-batch
candidates against being the searched network itself, so a Store reply
proposing the network as its own possible ancestor/descendant (confirmed on
chain) makes `process` persist self-edges: on batch `[n1]` with such a
Store, both persisted edges relate `n1` to itself. -/
theorem cC9_counterexample :
    (process selfReturningStore confirmN1Chain 2 [some sampleN1] false).2 =
      some (.ok (some [selfEdgeN1, selfEdgeN1]))
    ∧ selfEdgeN1.ancestor.id = selfEdgeN1.descendant.id :=
  ⟨rfl, rfl⟩

/-- C9 amended: pairwise edges never relate equal ids, and provided every
Store candidate batch returned during the searches contains no candidate
whose id is the queried network's own id, every edge list the core hands to
the bulk load — pairwise edges and confirmed cross-batch edges alike —
contains no self-edge. -/
theorem cC9_no_self_edges (store : StoreFun) (chain : ChainFun) (fuel : Nat)
    (input : List (Option Network)) (d : Bool)
    (hstore : ∀ rel nid tried r, store rel nid tried d = .ok r →
        ∀ c ∈ r.networks, c.id ≠ nid) :
    (∀ e ∈ (collectNetworks input).2, e.ancestor.id ≠ e.descendant.id)
    ∧ ∀ inputs, Effect.storeLoad inputs ∈ (process store chain fuel input d).1 →
        ∀ e ∈ inputs, e.ancestor.id ≠ e.descendant.id := by
  constructor
  · intro e he
    exact (collectNetworks_edges_good input e he).2
  · intro inputs hin e he
    by_cases hempty : input.length = 0
    · simp [process, hempty] at hin
    · simp only [process, if_neg hempty] at hin
      split at hin
      · have := findRelationAux_no_load store chain .ancestor
          (collectNetworks input).1.head? d fuel [] _ hin
        simp [Effect.isLoad] at this
      · have := findRelationAux_no_load store chain .ancestor
          (collectNetworks input).1.head? d fuel [] _ hin
        simp [Effect.isLoad] at this
      · split at hin
        · rcases List.mem_append.mp hin with h' | h'
          · have := findRelationAux_no_load store chain .ancestor
              (collectNetworks input).1.head? d fuel [] _ h'
            simp [Effect.isLoad] at this
          · have := processLoop_no_load store chain d fuel
              (collectNetworks input).1 (collectNetworks input).2 _ h'
            simp [Effect.isLoad] at this
        · rcases List.mem_append.mp hin with h' | h'
          · have := findRelationAux_no_load store chain .ancestor
              (collectNetworks input).1.head? d fuel [] _ h'
            simp [Effect.isLoad] at this
          · have := processLoop_no_load store chain d fuel
              (collectNetworks input).1 (collectNetworks input).2 _ h'
            simp [Effect.isLoad] at this
        · rename_i lpres heq
          rcases List.mem_append.mp hin with h' | h'
          · rcases List.mem_append.mp h' with h'' | h''
            · have := findRelationAux_no_load store chain .ancestor
                (collectNetworks input).1.head? d fuel [] _ h''
              simp [Effect.isLoad] at this
            · have := processLoop_no_load store chain d fuel
                (collectNetworks input).1 (collectNetworks input).2 _ h''
              simp [Effect.isLoad] at this
          · simp at h'
            subst h'
            exact processLoop_no_self_edges store chain d fuel hstore
              (collectNetworks input).1 (collectNetworks input).2
              (fun e' he' => (collectNetworks_edges_good input e' he').2)
              inputs heq e he

/-- C9 amended, witness: with the exhausted echoing Store (which never
proposes any candidate, in particular never the queried network) nothing
relates any network to itself in any load of the batch `[n1, n2]`. -/
theorem cC9_no_self_edges_witness :
    (∀ rel nid tried r,
        emptyReplyStore rel nid tried false = .ok r →
        ∀ c ∈ r.networks, c.id ≠ nid)
    ∧ ((∀ e ∈ (collectNetworks [some sampleN1, some sampleN2]).2,
          e.ancestor.id ≠ e.descendant.id)
       ∧ ∀ inputs,
           Effect.storeLoad inputs ∈
             (process emptyReplyStore deadChain 1 [some sampleN1, some sampleN2] false).1 →
           ∀ e ∈ inputs, e.ancestor.id ≠ e.descendant.id) :=
  have hyp : ∀ rel nid tried r,
      emptyReplyStore rel nid tried false = .ok r →
      ∀ c ∈ r.networks, c.id ≠ nid := by
    intro rel nid tried r hr
    injection hr with hr'
    subst hr'
    simp
  ⟨hyp,
   cC9_no_self_edges emptyReplyStore deadChain 1 [some sampleN1, some sampleN2]
     false hyp⟩

end NetworkGenealogies
